import Mathlib

/-!
Verification development for the Jobly repository (Express backend + React client).

The Express backend is shallowly embedded: JavaScript values are modelled by the
inductive type `JSValue`, JS objects by association lists in key-insertion order,
the PostgreSQL store by `DbState`, and each model operation mirrors the control
flow of the corresponding source function (`helpers/sql.js`, `models/company.js`,
`models/user.js`, the Job model, the JobApplication model and `middleware/auth.js`).
Errors thrown by the code are modelled by `Except JoblyError`.
-/

set_option maxHeartbeats 1000000

/-- Model of a JavaScript runtime value as far as the Jobly code observes it:
`undefined`, `null`, booleans, numbers (modelled exactly as rationals), strings,
arrays and plain objects (association lists in key-insertion order). -/
inductive JSValue where
  | undef
  | null
  | bool (b : Bool)
  | num (q : Rat)
  | str (s : String)
  | arr (elems : List JSValue)
  | obj (fields : List (String × JSValue))

/-- A JavaScript object: fields in insertion order. -/
abbrev JSObj := List (String × JSValue)

/-- Is the value `undefined`? (`value !== undefined` tests in the source). -/
def JSValue.isUndef : JSValue → Bool
  | .undef => true
  | _ => false

/-- JavaScript truthiness, as used by `if (data.password)` in `User.update`. -/
def JSValue.isTruthy : JSValue → Bool
  | .undef => false
  | .null => false
  | .bool b => b
  | .num q => q != 0
  | .str s => s != ""
  | .arr _ => true
  | .obj _ => true

/-- Is the value a plain object (`typeof value === 'object' && value !== null &&
!Array.isArray(value)` in `sqlForPartialUpdate`)? -/
def JSValue.isPlainObj : JSValue → Bool
  | .obj _ => true
  | _ => false

/-- `Object.keys(o)`. -/
def jsKeys (o : JSObj) : List String := o.map Prod.fst

/-- Property access `o[k]`: the first binding of `k`, or `undefined`. -/
def jsGet (o : JSObj) (k : String) : JSValue :=
  match o.find? (fun p => p.1 == k) with
  | some p => p.2
  | none => (.undef)

/-- Property assignment `o[k] = v` (replaces an existing binding in place,
otherwise appends, as JavaScript does). -/
def setField (o : JSObj) (k : String) (v : JSValue) : JSObj :=
  if o.any (fun p => p.1 == k) then
    o.map (fun p => if p.1 == k then (p.1, v) else p)
  else o ++ [(k, v)]

/-- `delete o[k]`. -/
def removeField (o : JSObj) (k : String) : JSObj :=
  o.filter (fun p => !(p.1 == k))

/-- Does the object have a binding for `k`? -/
def hasField (o : JSObj) (k : String) : Bool :=
  o.any (fun p => p.1 == k)

/-- The error taxonomy of `expressError.js`: `BadRequestError` (400),
`UnauthorizedError` (401), `NotFoundError` (404) and the generic
`ExpressError` (500) used for unexpected database failures. -/
inductive JoblyError where
  | badRequest (msg : String)
  | unauthorized (msg : String)
  | notFound (msg : String)
  | serverError (msg : String)

/-- Result record of `sqlForPartialUpdate`: the SQL `SET` fragment and the
positional parameter values. -/
structure SqlUpdate where
  setCols : String
  values : List JSValue

/-- Render a column name the way the source interpolates it: `"col"`. -/
def quoteCol (c : String) : String := "\"" ++ c ++ "\""

/-- Column-name lookup `jsToSql[key] || key` from `sqlForPartialUpdate`:
a mapped name is used only when the mapping value is truthy (a nonempty
string); otherwise the logical key itself is the column name. -/
def sqlKeyFor (jsToSql : List (String × String)) (key : String) : String :=
  match (jsToSql.find? (fun p => p.1 == key)).map Prod.snd with
  | some s => if s == "" then key else s
  | none => key

/-- `String.prototype.startsWith`, modelled structurally over the character
lists (kernel-computable, unlike the library version). -/
def strStartsWith (s pre : String) : Bool := pre.data.isPrefixOf s.data

/-- One step of the `keys.forEach` loop of `sqlForPartialUpdate`: push a
single `"col"=$n` fragment and its value, numbering by the current length
of the values array plus one. -/
def pushAssign (acc : List String × List JSValue) (col : String) (v : JSValue) :
    List String × List JSValue :=
  (acc.1 ++ [quoteCol col ++ "=$" ++ toString (acc.2.length + 1)], acc.2 ++ [v])

/-- Body of the `keys.forEach` loop of `sqlForPartialUpdate`, processing the
key `key` of `dataToUpdate`: skip `undefined` values; expand a plain-object
value field-by-field when the mapping has a `key.`-prefixed entry; otherwise
push a single assignment. -/
def processKey (jsToSql : List (String × String)) (dataToUpdate : JSObj)
    (acc : List String × List JSValue) (key : String) : List String × List JSValue :=
  let value := jsGet dataToUpdate key
  if value.isUndef then acc
  else
    let sqlKey := sqlKeyFor jsToSql key
    match value with
    | .obj fields =>
      if jsToSql.any (fun p => strStartsWith p.1 (key ++ ".")) then
        fields.foldl
          (fun acc2 nf =>
            if nf.2.isUndef then acc2
            else pushAssign acc2 (sqlKeyFor jsToSql (key ++ "." ++ nf.1)) nf.2)
          acc
      else pushAssign acc sqlKey value
    | _ => pushAssign acc sqlKey value

/-- Model of `sqlForPartialUpdate(dataToUpdate, jsToSql)` from
`helpers/sql.js`: throws `BadRequestError("No data")` when the object has no
keys, otherwise folds the loop body over `Object.keys(dataToUpdate)` and joins
the fragments with `", "`. -/
def sqlForPartialUpdate (dataToUpdate : JSObj) (jsToSql : List (String × String)) :
    Except JoblyError SqlUpdate :=
  let keys := jsKeys dataToUpdate
  if keys.isEmpty then .error (.badRequest "No data")
  else
    let r := keys.foldl (processKey jsToSql dataToUpdate) ([], [])
    .ok { setCols := String.intercalate ", " r.1, values := r.2 }

/-- The column/value pairs that the `SET` fragment produced for one key of the
update object assigns, in order: the pure content of one `forEach` step. -/
def expandEntry (jsToSql : List (String × String)) (key : String) (value : JSValue) :
    List (String × JSValue) :=
  if value.isUndef then []
  else
    match value with
    | .obj fields =>
      if jsToSql.any (fun p => strStartsWith p.1 (key ++ ".")) then
        fields.filterMap
          (fun nf =>
            if nf.2.isUndef then none
            else some (sqlKeyFor jsToSql (key ++ "." ++ nf.1), nf.2))
      else [(sqlKeyFor jsToSql key, value)]
    | _ => [(sqlKeyFor jsToSql key, value)]

/-- All column/value pairs assigned by the `SET` fragment of
`sqlForPartialUpdate`, in order.  The database executing
`UPDATE ... SET ${setCols}` with the positional values applies exactly these
assignments; `renderCols_assignments` below proves the correspondence. -/
def updateAssignments (dataToUpdate : JSObj) (jsToSql : List (String × String)) :
    List (String × JSValue) :=
  ((jsKeys dataToUpdate).map
    (fun k => expandEntry jsToSql k (jsGet dataToUpdate k))).flatten

/-- Render a list of assignments as numbered `"col"=$n` fragments, starting
the numbering after `n` previous values. -/
def renderCols : List (String × JSValue) → Nat → List String
  | [], _ => []
  | a :: rest, n => (quoteCol a.1 ++ "=$" ++ toString (n + 1)) :: renderCols rest (n + 1)

/-- Column name as the C1 claim words it: `jsToSql[ki]` when `ki` is present
in the mapping, and `ki` itself otherwise (strict lookup, no truthiness). -/
def claimCol (jsToSql : List (String × String)) (k : String) : String :=
  match (jsToSql.find? (fun p => p.1 == k)).map Prod.snd with
  | some s => s
  | none => k

/-- The output the C1 claim describes, stated from the claim's own words: walk
the update object in key order, skip `undefined` values, keep `null`, name the
column via `claimCol`, and number the kept values consecutively starting after
`n` previous ones.  Returns (fragments, values). -/
def claimFragments (jsToSql : List (String × String)) :
    JSObj → Nat → List String × List JSValue
  | [], _ => ([], [])
  | p :: rest, n =>
    if p.2.isUndef then claimFragments jsToSql rest n
    else
      let r := claimFragments jsToSql rest (n + 1)
      ((quoteCol (claimCol jsToSql p.1) ++ "=$" ++ toString (n + 1)) :: r.1, p.2 :: r.2)

/-- Model of PostgreSQL `LOWER` on the strings this application stores. -/
def lowerStr (s : String) : String := ⟨s.data.map Char.toLower⟩

/-- PostgreSQL `LIKE` pattern matching over characters: `%` matches any
sequence, `_` any single character, and backslash escapes the next pattern
character (the PostgreSQL default escape). -/
def likeMatch : List Char → List Char → Bool
  | [], s => s.isEmpty
  | '%' :: ps, [] => likeMatch ps []
  | '%' :: ps, c :: s2 => likeMatch ps (c :: s2) || likeMatch ('%' :: ps) s2
  | '_' :: _, [] => false
  | '_' :: ps, _ :: s2 => likeMatch ps s2
  | '\\' :: q :: ps2, c :: s2 => (q == c) && likeMatch ps2 s2
  | '\\' :: _ :: _, [] => false
  | ['\\'], _ => false
  | p :: ps, c :: s2 => (p == c) && likeMatch ps s2
  | _ :: _, [] => false
termination_by p s => (s.length, p.length)

/-- The condition `LOWER(col) LIKE '%' || LOWER($k) || '%'` that `findAll`
builds for `nameLike`/`titleLike` filters, as the database evaluates it. -/
def sqlLikeContains (pat s : String) : Bool :=
  likeMatch ('%' :: ((lowerStr pat).data ++ ['%'])) (lowerStr s).data

/-- Case-insensitive substring containment, as the C3/C9 claims word it. -/
def containsSub (pat : List Char) : List Char → Bool
  | [] => pat.isEmpty
  | c :: s2 => pat.isPrefixOf (c :: s2) || containsSub pat s2

/-- Case-insensitive substring containment on strings (claim-side predicate). -/
def containsCI (pat s : String) : Bool :=
  containsSub (lowerStr pat).data (lowerStr s).data

/-- A list of wildcard-free pattern characters. -/
def noWildList (l : List Char) : Bool :=
  l.all (fun c => !(c == '%' || c == '_' || c == '\\'))

/-- Does the string avoid the SQL `LIKE` wildcard and escape characters? -/
def noWildStr (s : String) : Bool :=
  s.data.all (fun c => !(c == '%' || c == '_' || c == '\\'))

/-- A row of the `companies` table (`num_employees` and `logo_url` nullable). -/
structure CompanyRow where
  handle : String
  name : String
  description : String
  numEmployees : Option Int
  logoUrl : Option String
deriving DecidableEq

/-- A row of the `jobs` table (`salary` and `equity` nullable; `equity` is a
NUMERIC column, modelled exactly as a rational). -/
structure JobRow where
  id : Int
  title : String
  salary : Option Int
  equity : Option Rat
  companyHandle : String
deriving DecidableEq

/-- A row of the `users` table; `password` stores the bcrypt hash. -/
structure UserRow where
  username : String
  password : String
  firstName : String
  lastName : String
  email : String
  isAdmin : Bool
deriving DecidableEq

/-- The database state: the four tables, plus a count of queries issued so
that "no query was issued" is observable in theorems. -/
structure DbState where
  companies : List CompanyRow
  users : List UserRow
  jobs : List JobRow
  applications : List (String × Int)
  queriesIssued : Nat
deriving DecidableEq

/-- One `db.query` call was issued. -/
def bump (st : DbState) : DbState := { st with queriesIssued := st.queriesIssued + 1 }

/-- Filters accepted by `Company.findAll`. -/
structure CompanyFilters where
  minEmployees : Option Int := none
  maxEmployees : Option Int := none
  nameLike : Option String := none

/-- Filters accepted by `Job.findAll`.  `hasEquity` is kept as a raw JS value
because the source tests `hasEquity === true || hasEquity == 'true'`. -/
structure JobFilters where
  minSalary : Option Int := none
  hasEquity : Option JSValue := none
  title : Option String := none
  titleLike : Option String := none

/-- The conjunction of the `WHERE` conditions `Company.findAll` pushes, as the
database evaluates them (`NULL` comparisons are not satisfied). -/
def companyCond (f : CompanyFilters) (row : CompanyRow) : Bool :=
  (match f.minEmployees with
   | some m => match row.numEmployees with | some n => decide (m ≤ n) | none => false
   | none => true) &&
  (match f.maxEmployees with
   | some m => match row.numEmployees with | some n => decide (n ≤ m) | none => false
   | none => true) &&
  (match f.nameLike with
   | some pat => sqlLikeContains pat row.name
   | none => true)

/-- Model of `Company.findAll(filters)` from `models/company.js`: one SELECT
with the pushed conditions joined by AND and `ORDER BY name`. -/
def Company.findAll (f : CompanyFilters) (st : DbState) : List CompanyRow × DbState :=
  ((st.companies.filter (companyCond f)).mergeSort (fun a b => decide (a.name ≤ b.name)),
   bump st)

/-- The `hasEquity === true || hasEquity == 'true'` test of `Job.findAll`. -/
def hasEquityFlag : Option JSValue → Bool
  | some (.bool true) => true
  | some (.str s) => s == "true"
  | _ => false

/-- The conjunction of the `WHERE` conditions `Job.findAll` pushes. -/
def jobCond (f : JobFilters) (row : JobRow) : Bool :=
  (match f.minSalary with
   | some m => match row.salary with | some n => decide (m ≤ n) | none => false
   | none => true) &&
  (match f.titleLike with
   | some pat => sqlLikeContains pat row.title
   | none => true) &&
  (match f.title with
   | some t => row.title == t
   | none => true) &&
  (if hasEquityFlag f.hasEquity then
     match row.equity with | some e => decide (0 < e) | none => false
   else true)

/-- Model of `Job.findAll(filters)` from the Job model: one SELECT with the
pushed conditions joined by AND and `ORDER BY title`. -/
def Job.findAll (f : JobFilters) (st : DbState) : List JobRow × DbState :=
  ((st.jobs.filter (jobCond f)).mergeSort (fun a b => decide (a.title ≤ b.title)), bump st)

/-- The predicate the C3 claim words: all supplied company filters hold, with
`nameLike` read as case-insensitive substring containment. -/
def specCompanyPred (f : CompanyFilters) (row : CompanyRow) : Bool :=
  (match f.minEmployees with
   | some m => match row.numEmployees with | some n => decide (m ≤ n) | none => false
   | none => true) &&
  (match f.maxEmployees with
   | some m => match row.numEmployees with | some n => decide (n ≤ m) | none => false
   | none => true) &&
  (match f.nameLike with
   | some pat => containsCI pat row.name
   | none => true)

/-- The predicate the C9 claim words: all supplied job filters hold, with
`titleLike` read as case-insensitive substring containment. -/
def specJobPred (f : JobFilters) (row : JobRow) : Bool :=
  (match f.minSalary with
   | some m => match row.salary with | some n => decide (m ≤ n) | none => false
   | none => true) &&
  (match f.titleLike with
   | some pat => containsCI pat row.title
   | none => true) &&
  (match f.title with
   | some t => row.title == t
   | none => true) &&
  (if hasEquityFlag f.hasEquity then
     match row.equity with | some e => decide (0 < e) | none => false
   else true)

/-- The `jsToSql` mapping `Company.update` passes to `sqlForPartialUpdate`. -/
def companyJsToSql : List (String × String) :=
  [("numEmployees", "num_employees"), ("logoUrl", "logo_url")]

/-- The `jsToSql` mapping the Job model's `update` passes. -/
def jobJsToSql : List (String × String) :=
  [("title", "title"), ("salary", "salary"), ("equity", "equity")]

/-- The `jsToSql` mapping `User.update` passes. -/
def userJsToSql : List (String × String) :=
  [("firstName", "first_name"), ("lastName", "last_name"), ("isAdmin", "is_admin")]

/-- Database execution of one `"col"=$n` assignment on a `companies` row:
unknown columns or type/constraint violations are query errors (`none`).
Values for integer columns must be integral. -/
def applyCompanyAssign (row : CompanyRow) (a : String × JSValue) : Option CompanyRow :=
  match a.1, a.2 with
  | "handle", .str s => some { row with handle := s }
  | "name", .str s => some { row with name := s }
  | "description", .str s => some { row with description := s }
  | "num_employees", .num q =>
    if q.den == 1 then some { row with numEmployees := some q.num } else none
  | "num_employees", .null => some { row with numEmployees := none }
  | "logo_url", .str s => some { row with logoUrl := some s }
  | "logo_url", .null => some { row with logoUrl := none }
  | _, _ => none

/-- Model of `Company.update(handle, data)` from `models/company.js`: build the
`SET` fragment (whose `BadRequestError` propagates before any query), then run
one UPDATE query; no matched row is `NotFoundError`. -/
def Company.update (handle : String) (data : JSObj) (st : DbState) :
    Except JoblyError CompanyRow × DbState :=
  match sqlForPartialUpdate data companyJsToSql with
  | .error e => (.error e, st)
  | .ok _ =>
    let assigns := updateAssignments data companyJsToSql
    let st1 := bump st
    if assigns.isEmpty then (.error (.serverError "syntax error in UPDATE: empty SET clause"), st1)
    else
      match st.companies.find? (fun r => r.handle == handle) with
      | none => (.error (.notFound ("No company: " ++ handle)), st1)
      | some row =>
        match assigns.foldlM applyCompanyAssign row with
        | none => (.error (.serverError "database error"), st1)
        | some row2 =>
          (.ok row2,
           { st1 with companies := st1.companies.map (fun r => if r.handle == handle then row2 else r) })

/-- Database execution of one assignment on a `jobs` row. -/
def applyJobAssign (row : JobRow) (a : String × JSValue) : Option JobRow :=
  match a.1, a.2 with
  | "title", .str s => some { row with title := s }
  | "salary", .num q => if q.den == 1 then some { row with salary := some q.num } else none
  | "salary", .null => some { row with salary := none }
  | "equity", .num q => if 0 ≤ q && q ≤ 1 then some { row with equity := some q } else none
  | "equity", .null => some { row with equity := none }
  | "company_handle", .str s => some { row with companyHandle := s }
  | _, _ => none

/-- Model of the Job model's `update(id, data)`. -/
def Job.update (id : Int) (data : JSObj) (st : DbState) :
    Except JoblyError JobRow × DbState :=
  match sqlForPartialUpdate data jobJsToSql with
  | .error e => (.error e, st)
  | .ok _ =>
    let assigns := updateAssignments data jobJsToSql
    let st1 := bump st
    if assigns.isEmpty then (.error (.serverError "syntax error in UPDATE: empty SET clause"), st1)
    else
      match st.jobs.find? (fun r => r.id == id) with
      | none => (.error (.notFound ("No job was updated: " ++ toString id)), st1)
      | some row =>
        match assigns.foldlM applyJobAssign row with
        | none => (.error (.serverError "database error"), st1)
        | some row2 =>
          (.ok row2,
           { st1 with jobs := st1.jobs.map (fun r => if r.id == id then row2 else r) })

/-- Database execution of one assignment on a `users` row. -/
def applyUserAssign (row : UserRow) (a : String × JSValue) : Option UserRow :=
  match a.1, a.2 with
  | "username", .str s => some { row with username := s }
  | "password", .str s => some { row with password := s }
  | "first_name", .str s => some { row with firstName := s }
  | "last_name", .str s => some { row with lastName := s }
  | "email", .str s => some { row with email := s }
  | "is_admin", .bool b => some { row with isAdmin := b }
  | _, _ => none

/-- The record shape `RETURNING username, first_name AS "firstName", ...`
produces (no password column). -/
def userReturnRecord (row : UserRow) : JSObj :=
  [("username", .str row.username), ("firstName", .str row.firstName),
   ("lastName", .str row.lastName), ("email", .str row.email),
   ("isAdmin", .bool row.isAdmin)]

/-- The record `User.authenticate`'s SELECT produces (includes the password
hash, deleted before returning). -/
def userAuthRecord (row : UserRow) : JSObj :=
  [("username", .str row.username), ("password", .str row.password),
   ("firstName", .str row.firstName), ("lastName", .str row.lastName),
   ("email", .str row.email), ("isAdmin", .bool row.isAdmin)]

/-- Modelled from the spec: the external bcrypt library's salted password
hash, abstracted as a tagging function so "the stored value is the hash of
the supplied password" is expressible. -/
def bcryptHash (password : String) : String := "$2b$hash$" ++ password

/-- Modelled from the spec: `bcrypt.compare(candidate, storedHash)`. -/
def bcryptCompare (candidate hash : String) : Bool := hash == bcryptHash candidate

/-- The part of `User.update` after the optional password re-hash: build the
`SET` fragment, run the UPDATE, delete the password from the returned record,
query the user's applications and attach `jobs` only when that list is
non-empty (`userJobs?.rows?.length !== 0` in the source). -/
def User.updateCore (username : String) (data : JSObj) (st : DbState) :
    Except JoblyError JSObj × DbState :=
  match sqlForPartialUpdate data userJsToSql with
  | .error e => (.error e, st)
  | .ok _ =>
    let assigns := updateAssignments data userJsToSql
    let st1 := bump st
    if assigns.isEmpty then (.error (.serverError "syntax error in UPDATE: empty SET clause"), st1)
    else
      match st.users.find? (fun r => r.username == username) with
      | none => (.error (.notFound ("No user: " ++ username)), st1)
      | some row =>
        match assigns.foldlM applyUserAssign row with
        | none => (.error (.serverError "database error"), st1)
        | some row2 =>
          let st2 := { st1 with users := st1.users.map (fun r => if r.username == username then row2 else r) }
          let record := removeField (userReturnRecord row2) "password"
          let st3 := bump st2
          let jobs := (st3.applications.filter (fun a => a.1 == row2.username)).map Prod.snd
          let record2 :=
            if jobs.isEmpty then record
            else record ++ [("jobs", .arr (jobs.map (fun j => .num (j : Rat))))]
          (.ok record2, st3)

/-- Model of `User.update(username, data)` from `models/user.js`: re-hash
`data.password` first when it is truthy (`if (data.password)`); a truthy
non-string password makes `bcrypt.hash` throw. -/
def User.update (username : String) (data : JSObj) (st : DbState) :
    Except JoblyError JSObj × DbState :=
  let pw := jsGet data "password"
  if pw.isTruthy then
    match pw with
    | .str s => User.updateCore username (setField data "password" (.str (bcryptHash s))) st
    | _ => (.error (.serverError "bcrypt: data must be a string"), st)
  else User.updateCore username data st

/-- Model of `User.authenticate(username, password)`: select the row (with
password hash), compare, delete the password from the returned record; any
failure is `UnauthorizedError`. -/
def User.authenticate (username password : String) (st : DbState) :
    Except JoblyError JSObj × DbState :=
  let st1 := bump st
  match st.users.find? (fun r => r.username == username) with
  | some row =>
    if bcryptCompare password row.password then
      (.ok (removeField (userAuthRecord row) "password"), st1)
    else (.error (.unauthorized "Invalid username/password"), st1)
  | none => (.error (.unauthorized "Invalid username/password"), st1)

/-- Model of `User.register`: duplicate-username check, hash, insert,
`RETURNING` a record without the password column. -/
def User.register (username password firstName lastName email : String)
    (isAdmin : Bool) (st : DbState) : Except JoblyError JSObj × DbState :=
  let st1 := bump st
  if st.users.any (fun r => r.username == username) then
    (.error (.badRequest ("Duplicate username: " ++ username)), st1)
  else
    let row : UserRow :=
      { username := username, password := bcryptHash password, firstName := firstName,
        lastName := lastName, email := email, isAdmin := isAdmin }
    let st2 := bump st1
    (.ok (userReturnRecord row), { st2 with users := st2.users ++ [row] })

/-- Model of `User.findAll`: all users ordered by username, no password
column selected. -/
def User.findAll (st : DbState) : List JSObj × DbState :=
  ((st.users.mergeSort (fun a b => decide (a.username ≤ b.username))).map userReturnRecord,
   bump st)

/-- Model of `User.get(username)`: LEFT JOIN with applications, `jobs` always
present (empty list when the user has no applications). -/
def User.get (username : String) (st : DbState) : Except JoblyError JSObj × DbState :=
  let st1 := bump st
  match st.users.find? (fun r => r.username == username) with
  | none => (.error (.notFound ("No username found: " ++ username)), st1)
  | some row =>
    let jobs := (st.applications.filter (fun a => a.1 == username)).map Prod.snd
    (.ok (userReturnRecord row ++ [("jobs", .arr (jobs.map (fun j => .num (j : Rat))))]), st1)

/-- Model of `JobApplication.apply(username, jobId)`: job-existence check,
username-existence check, duplicate-pair check, then insert, in the source's
order (the model takes both arguments already defined; the source first
rejects `undefined` arguments with `BadRequestError`). -/
def JobApplication.apply (username : String) (jobId : Int) (st : DbState) :
    Except JoblyError JSObj × DbState :=
  let st1 := bump st
  if !(st.jobs.any (fun r => r.id == jobId)) then
    (.error (.notFound "Job cannot be found."), st1)
  else
    let st2 := bump st1
    if !(st.users.any (fun r => r.username == username)) then
      (.error (.notFound "Username cannot be found."), st2)
    else
      let st3 := bump st2
      if st.applications.any (fun a => a.1 == username && a.2 == jobId) then
        (.error (.badRequest "Job Application has already been submitted for this job."), st3)
      else
        let st4 := bump st3
        (.ok [("applied", .num (jobId : Rat))],
         { st4 with applications := st4.applications ++ [(username, jobId)] })

/-- JWT claims as this application issues them. -/
structure Claims where
  username : String
  isAdmin : Bool
deriving DecidableEq

/-- Structural model of `String.prototype.trim` (strip whitespace both ends). -/
def strTrim (s : String) : String :=
  ⟨((s.data.dropWhile Char.isWhitespace).reverse.dropWhile Char.isWhitespace).reverse⟩

/-- The token extraction `authHeader.replace(/^[Bb]earer /, "").trim()`:
the anchored regex strips one leading `Bearer ` or `bearer `. -/
def stripBearer (h : String) : String :=
  if strStartsWith h "Bearer " then strTrim ⟨h.data.drop 7⟩
  else if strStartsWith h "bearer " then strTrim ⟨h.data.drop 7⟩
  else strTrim h

/-- Model of `authenticateJWT` from `middleware/auth.js`, parametric in the
external `jwt.verify(-, SECRET_KEY)` (which throws on any invalid or expired
token): the whole body is wrapped in try/catch whose catch calls `next()`
without attaching claims. -/
def authenticateJWT (verify : String → Except String Claims) (authHeader : Option String) :
    Except JoblyError (Option Claims) :=
  let attempt : Except JoblyError (Option Claims) :=
    match authHeader with
    | none => .ok none
    | some h =>
      match verify (stripBearer h) with
      | .ok claims => .ok (some claims)
      | .error e => .error (.serverError e)
  match attempt with
  | .ok r => .ok r
  | .error _ => .ok none

/-- Model of `ensureLoggedIn`: reject when no claims are attached. -/
def ensureLoggedIn (user : Option Claims) : Except JoblyError Unit :=
  match user with
  | some _ => .ok ()
  | none => .error (.unauthorized "Unauthorized")

/-- Model of `onlyAdmin`: `!res?.locals?.user?.isAdmin` rejects. -/
def onlyAdmin (user : Option Claims) : Except JoblyError Unit :=
  match user with
  | some c => if c.isAdmin then .ok () else .error (.unauthorized "Unauthorized")
  | none => .error (.unauthorized "Unauthorized")

/-- Model of `ensureCorrectUserOrAdmin`: pass when claims are present and the
user is an admin or matches the route's `:username`. -/
def ensureCorrectUserOrAdmin (user : Option Claims) (targetUsername : String) :
    Except JoblyError Unit :=
  match user with
  | some c =>
    if c.isAdmin || c.username == targetUsername then .ok ()
    else .error (.unauthorized "Unauthorized")
  | none => .error (.unauthorized "Unauthorized")

/-- A sample job row used by concrete witnesses. -/
def sampleJob : JobRow :=
  { id := 1, title := "j1", salary := some 100000, equity := some 1, companyHandle := "c1" }

/-- A sample user row used by concrete witnesses. -/
def sampleUser : UserRow :=
  { username := "u1", password := bcryptHash "password1", firstName := "U1F",
    lastName := "U1L", email := "u1@email.com", isAdmin := false }

/-- Another sample user row used by concrete witnesses. -/
def sampleUser9 : UserRow :=
  { username := "u9", password := bcryptHash "pw", firstName := "F",
    lastName := "L", email := "e@x.com", isAdmin := false }

/-- A small concrete store: one user, one job, one application. -/
def sampleDb : DbState :=
  { companies := [], users := [sampleUser], jobs := [sampleJob],
    applications := [("u1", 1)], queriesIssued := 0 }

/-- The same store with no applications. -/
def sampleDbNoApps : DbState := { sampleDb with applications := [] }

/-- The password value one user-row assignment writes, if any. -/
def pwOf (a : String × JSValue) : Option String :=
  if a.1 == "password" then
    match a.2 with
    | JSValue.str s => some s
    | _ => none
  else none

/-- The password values written by a list of user-row assignments, in order. -/
def pwWrites (assigns : List (String × JSValue)) : List String :=
  assigns.filterMap pwOf

/-- Company row for the wildcard counterexample. -/
def wildCompany : CompanyRow :=
  { handle := "ca3", name := "ca3", description := "d", numEmployees := some 1, logoUrl := none }

/-- Store holding only `wildCompany`. -/
def wildCompanyDb : DbState :=
  { companies := [wildCompany], users := [], jobs := [], applications := [], queriesIssued := 0 }

/-- Company filter whose pattern contains a LIKE wildcard. -/
def wildCompanyFilters : CompanyFilters := { nameLike := some "c%3" }

/-- Job row for the wildcard counterexample. -/
def wildJob : JobRow :=
  { id := 7, title := "ca3", salary := some 1, equity := none, companyHandle := "c1" }

/-- Store holding only `wildJob`. -/
def wildJobDb : DbState :=
  { companies := [], users := [], jobs := [wildJob], applications := [], queriesIssued := 0 }

/-- Job filter whose pattern contains a LIKE wildcard. -/
def wildJobFilters : JobFilters := { titleLike := some "c%3" }

/-- The three companies of the spec's conjunctive-filter example. -/
def specCompanies : List CompanyRow :=
  [{ handle := "c1", name := "C1", description := "D1", numEmployees := some 1, logoUrl := none },
   { handle := "c2", name := "C2", description := "D2", numEmployees := some 2, logoUrl := none },
   { handle := "c3", name := "C3", description := "D3", numEmployees := some 3, logoUrl := none }]

/-- Store holding the spec's three example companies. -/
def specCompanyDb : DbState :=
  { companies := specCompanies, users := [], jobs := [], applications := [], queriesIssued := 0 }

/-- Three sample jobs for the job-filter witness. -/
def specJobs : List JobRow :=
  [{ id := 1, title := "j1", salary := some 100000, equity := some 1, companyHandle := "c1" },
   { id := 2, title := "j2", salary := some 200000, equity := some 1, companyHandle := "c2" },
   { id := 3, title := "j3", salary := some 300000, equity := some 0, companyHandle := "c3" }]

/-- Store holding the three sample jobs. -/
def specJobDb : DbState :=
  { companies := [], users := [], jobs := specJobs, applications := [], queriesIssued := 0 }

/-- The spec's example conjunctive company filter. -/
def specCompanyFilters : CompanyFilters :=
  { minEmployees := some 2, maxEmployees := some 3, nameLike := some "c" }

/-- A conjunctive job filter exercising salary, equity and title-substring. -/
def specJobFilters : JobFilters :=
  { minSalary := some 150000, hasEquity := some (JSValue.bool true),
    title := none, titleLike := some "j" }

theorem renderCols_append (xs ys : List (String × JSValue)) (n : Nat) :
    renderCols (xs ++ ys) n = renderCols xs n ++ renderCols ys (n + xs.length) := by
  induction xs generalizing n with
  | nil => simp [renderCols]
  | cons a xs ih =>
    simp only [List.cons_append, renderCols, List.length_cons]
    have h : n + 1 + xs.length = n + (xs.length + 1) := by omega
    rw [← h]
    exact congrArg _ (ih (n + 1))

theorem foldl_nested (jsToSql : List (String × String)) (key : String)
    (fields : List (String × JSValue)) (c0 : List String) (v0 : List JSValue) :
    fields.foldl
      (fun acc2 nf =>
        if nf.2.isUndef then acc2
        else pushAssign acc2 (sqlKeyFor jsToSql (key ++ "." ++ nf.1)) nf.2)
      (c0, v0) =
    (c0 ++
      renderCols (fields.filterMap
        (fun nf =>
          if nf.2.isUndef then none
          else some (sqlKeyFor jsToSql (key ++ "." ++ nf.1), nf.2))) v0.length,
     v0 ++
      (fields.filterMap
        (fun nf =>
          if nf.2.isUndef then none
          else some (sqlKeyFor jsToSql (key ++ "." ++ nf.1), nf.2))).map Prod.snd) := by
  induction fields generalizing c0 v0 with
  | nil => simp [renderCols]
  | cons nf fields ih =>
    rw [List.foldl_cons, List.filterMap_cons]
    cases hu : nf.2.isUndef with
    | true => simp [ih]
    | false =>
      have hp : pushAssign (c0, v0) (sqlKeyFor jsToSql (key ++ "." ++ nf.1)) nf.2 =
          (c0 ++ [quoteCol (sqlKeyFor jsToSql (key ++ "." ++ nf.1)) ++ "=$" ++
            toString (v0.length + 1)], v0 ++ [nf.2]) := rfl
      simp [hp, ih, renderCols]

theorem processKey_eq (jsToSql : List (String × String)) (data : JSObj)
    (c0 : List String) (v0 : List JSValue) (key : String) :
    processKey jsToSql data (c0, v0) key =
      (c0 ++ renderCols (expandEntry jsToSql key (jsGet data key)) v0.length,
       v0 ++ (expandEntry jsToSql key (jsGet data key)).map Prod.snd) := by
  unfold processKey expandEntry
  cases hv : jsGet data key with
  | undef => simp [JSValue.isUndef, renderCols]
  | obj fields =>
    by_cases hn : jsToSql.any (fun p => strStartsWith p.1 (key ++ "."))
    · simp only [JSValue.isUndef, if_pos hn, Bool.false_eq_true, if_false]
      exact foldl_nested jsToSql key fields c0 v0
    · simp only [JSValue.isUndef, if_neg hn, Bool.false_eq_true, if_false]
      simp [pushAssign, renderCols]
  | null => simp [JSValue.isUndef, pushAssign, renderCols]
  | bool b => simp [JSValue.isUndef, pushAssign, renderCols]
  | num q => simp [JSValue.isUndef, pushAssign, renderCols]
  | str s => simp [JSValue.isUndef, pushAssign, renderCols]
  | arr elems => simp [JSValue.isUndef, pushAssign, renderCols]

theorem foldl_processKey (jsToSql : List (String × String)) (data : JSObj)
    (keys : List String) (c0 : List String) (v0 : List JSValue) :
    keys.foldl (processKey jsToSql data) (c0, v0) =
      (c0 ++ renderCols
        ((keys.map (fun k => expandEntry jsToSql k (jsGet data k))).flatten) v0.length,
       v0 ++ ((keys.map (fun k => expandEntry jsToSql k (jsGet data k))).flatten).map
        Prod.snd) := by
  induction keys generalizing c0 v0 with
  | nil => simp [renderCols]
  | cons k keys ih =>
    rw [List.foldl_cons, processKey_eq, ih]
    simp [renderCols_append, List.append_assoc]

/-- For a non-empty update object, `sqlForPartialUpdate` returns exactly the
rendered, consecutively numbered fragments of `updateAssignments` and the
corresponding values. -/
theorem sqlForPartialUpdate_eq (data : JSObj) (jsToSql : List (String × String))
    (h : (jsKeys data).isEmpty = false) :
    sqlForPartialUpdate data jsToSql =
      .ok { setCols := String.intercalate ", " (renderCols (updateAssignments data jsToSql) 0),
            values := (updateAssignments data jsToSql).map Prod.snd } := by
  unfold sqlForPartialUpdate
  rw [if_neg (by simp [h])]
  rw [show ([], []) = (([] : List String), ([] : List JSValue)) from rfl]
  rw [foldl_processKey]
  simp [updateAssignments]

theorem jsGet_cons_self (p : String × JSValue) (rest : JSObj) :
    jsGet (p :: rest) p.1 = p.2 := by
  simp [jsGet]

theorem jsGet_cons_ne (p : String × JSValue) (rest : JSObj) (k : String) (h : k ≠ p.1) :
    jsGet (p :: rest) k = jsGet rest k := by
  have h2 : ¬((fun q : String × JSValue => q.1 == k) p = true) := by
    simp only [beq_iff_eq]
    exact fun e => h e.symm
  unfold jsGet
  rw [List.find?_cons_of_neg rest h2]

theorem expandEntry_simple (m : List (String × String)) (k : String) (v : JSValue)
    (hdef : v.isUndef = false)
    (hno : (v.isPlainObj && m.any (fun q => strStartsWith q.1 (k ++ "."))) = false) :
    expandEntry m k v = [(sqlKeyFor m k, v)] := by
  unfold expandEntry
  cases v with
  | undef => simp [JSValue.isUndef] at hdef
  | obj fields =>
    have hany : m.any (fun q => strStartsWith q.1 (k ++ ".")) = false := by
      simpa [JSValue.isPlainObj] using hno
    simp [JSValue.isUndef, hany]
  | null => simp [JSValue.isUndef]
  | bool b => simp [JSValue.isUndef]
  | num q => simp [JSValue.isUndef]
  | str s => simp [JSValue.isUndef]
  | arr es => simp [JSValue.isUndef]

theorem jsGet_isUndef_of_all (data : JSObj)
    (h : data.all (fun p => p.2.isUndef) = true) (k : String) :
    (jsGet data k).isUndef = true := by
  unfold jsGet
  cases hf : data.find? (fun p => p.1 == k) with
  | none => rfl
  | some p => exact List.all_eq_true.mp h p (List.mem_of_find?_eq_some hf)

theorem expandEntry_of_undef (m : List (String × String)) (k : String) (v : JSValue)
    (h : v.isUndef = true) : expandEntry m k v = [] := by
  unfold expandEntry
  rw [if_pos h]

/-- An update object all of whose values are `undefined` produces no
assignments at all. -/
theorem updateAssignments_all_undef (data : JSObj) (m : List (String × String))
    (h : data.all (fun p => p.2.isUndef) = true) :
    updateAssignments data m = [] := by
  unfold updateAssignments
  rw [List.flatten_eq_nil_iff]
  intro l hl
  rw [List.mem_map] at hl
  obtain ⟨k, hk, rfl⟩ := hl
  exact expandEntry_of_undef _ _ _ (jsGet_isUndef_of_all data h k)

/-- With no duplicate keys, no `undefined` values and no nested-object
expansion, the assignments are exactly one per field, in field order. -/
theorem updateAssignments_simple (data : JSObj) (m : List (String × String))
    (hnod : (jsKeys data).Nodup)
    (hdef : data.all (fun p => !p.2.isUndef) = true)
    (hno : data.all
      (fun p => !(p.2.isPlainObj && m.any (fun q => strStartsWith q.1 (p.1 ++ ".")))) = true) :
    updateAssignments data m = data.map (fun p => (sqlKeyFor m p.1, p.2)) := by
  induction data with
  | nil => rfl
  | cons p rest ih =>
    simp only [List.all_cons, Bool.and_eq_true] at hdef hno
    simp only [jsKeys, List.map_cons, List.nodup_cons] at hnod
    have hd1 : p.2.isUndef = false := by
      rw [← Bool.not_eq_true']
      exact hdef.1
    have hn1 : (p.2.isPlainObj && m.any (fun q => strStartsWith q.1 (p.1 ++ "."))) = false := by
      rw [← Bool.not_eq_true']
      exact hno.1
    show ((jsKeys (p :: rest)).map (fun k => expandEntry m k (jsGet (p :: rest) k))).flatten = _
    simp only [jsKeys, List.map_cons, List.flatten_cons]
    rw [jsGet_cons_self, expandEntry_simple m p.1 p.2 hd1 hn1]
    have hmap : (rest.map Prod.fst).map (fun k => expandEntry m k (jsGet (p :: rest) k)) =
        (rest.map Prod.fst).map (fun k => expandEntry m k (jsGet rest k)) := by
      apply List.map_congr_left
      intro k hk
      rw [jsGet_cons_ne p rest k]
      intro e
      exact hnod.1 (e ▸ hk)
    rw [hmap]
    have ht : ((rest.map Prod.fst).map (fun k => expandEntry m k (jsGet rest k))).flatten =
        updateAssignments rest m := rfl
    rw [ht, ih hnod.2 hdef.2 hno.2]
    simp

theorem sqlKeyFor_eq_claimCol (m : List (String × String))
    (hmap : m.all (fun q => !(q.2 == "")) = true) (k : String) :
    sqlKeyFor m k = claimCol m k := by
  unfold sqlKeyFor claimCol
  cases hf : m.find? (fun p => p.1 == k) with
  | none => rfl
  | some q =>
    have hq : (q.2 == "") = false := by
      have := List.all_eq_true.mp hmap q (List.mem_of_find?_eq_some hf)
      simpa using this
    simp [hq]

theorem claimFragments_eq (m : List (String × String)) (data : JSObj)
    (hdef : data.all (fun p => !p.2.isUndef) = true) :
    ∀ n, claimFragments m data n =
      (renderCols (data.map (fun p => (claimCol m p.1, p.2))) n, data.map Prod.snd) := by
  induction data with
  | nil => intro n; rfl
  | cons p rest ih =>
    intro n
    simp only [List.all_cons, Bool.and_eq_true] at hdef
    have hd1 : p.2.isUndef = false := by simpa using hdef.1
    rw [claimFragments, if_neg (by simp [hd1])]
    rw [ih hdef.2 (n + 1)]
    simp [renderCols]

/-- C1 counterexample: on the non-empty, all-defined update object
`{a: {b: 1}}` with mapping `{"a.b": "ab"}`, `sqlForPartialUpdate` expands the
nested object (producing `"ab"=$1` with value `1`) instead of the claim's
single assignment `"a"=$1` with the object value, so the claim as stated is
false at this input. -/
theorem C1_counterexample_nested_object :
    (jsKeys [("a", JSValue.obj [("b", JSValue.num 1)])]).isEmpty = false ∧
    ([("a", JSValue.obj [("b", JSValue.num 1)])].all (fun p => !p.2.isUndef)) = true ∧
    sqlForPartialUpdate [("a", JSValue.obj [("b", JSValue.num 1)])] [("a.b", "ab")] ≠
      .ok { setCols := String.intercalate ", "
              (claimFragments [("a.b", "ab")] [("a", JSValue.obj [("b", JSValue.num 1)])] 0).1,
            values :=
              (claimFragments [("a.b", "ab")] [("a", JSValue.obj [("b", JSValue.num 1)])] 0).2 } := by
  refine ⟨rfl, rfl, ?_⟩
  intro h
  have h2 := congrArg (fun e => match e with | Except.ok u => u.setCols | Except.error _ => "") h
  exact absurd h2 (by decide)

/-- C1 (amended): for every non-empty update object with no duplicate keys,
all of whose values are defined (null included), none of whose plain-object
values has a `key.`-prefixed entry in the mapping, and with every mapped
column name nonempty, `sqlForPartialUpdate` returns the setCols fragment
`"c1"=$1, ..., "cn"=$n` in key order with `ci = jsToSql[ki]` when present and
`ki` otherwise, and the corresponding values in the same order. -/
theorem C1_partial_update_amended (data : JSObj) (m : List (String × String))
    (hne : (jsKeys data).isEmpty = false)
    (hnod : (jsKeys data).Nodup)
    (hdef : data.all (fun p => !p.2.isUndef) = true)
    (hmap : m.all (fun q => !(q.2 == "")) = true)
    (hno : data.all
      (fun p => !(p.2.isPlainObj && m.any (fun q => strStartsWith q.1 (p.1 ++ ".")))) = true) :
    sqlForPartialUpdate data m =
      .ok { setCols := String.intercalate ", " (claimFragments m data 0).1,
            values := (claimFragments m data 0).2 } := by
  rw [sqlForPartialUpdate_eq data m hne]
  rw [updateAssignments_simple data m hnod hdef hno]
  rw [claimFragments_eq m data hdef 0]
  have hc : data.map (fun p => (sqlKeyFor m p.1, p.2)) =
      data.map (fun p => (claimCol m p.1, p.2)) := by
    apply List.map_congr_left
    intro p _
    rw [sqlKeyFor_eq_claimCol m hmap]
  rw [hc]
  simp [List.map_map]

theorem C1_partial_update_amended_witness :
    sqlForPartialUpdate [("firstName", JSValue.str "Al"), ("age", JSValue.num 30)]
        [("firstName", "first_name")] =
      .ok { setCols := "\"first_name\"=$1, \"age\"=$2",
            values := [JSValue.str "Al", JSValue.num 30] } :=
  (C1_partial_update_amended
    [("firstName", JSValue.str "Al"), ("age", JSValue.num 30)]
    [("firstName", "first_name")] rfl (by decide) rfl rfl rfl).trans (by rfl)

/-- C2: calling `Company.update`, the Job model's `update`, or `User.update`
with an empty data object raises `BadRequestError("No data")` before any
database query is issued, leaving the stored state (query counter included)
unchanged. -/
theorem C2_update_empty_data (st : DbState) (handle : String) (id : Int) (username : String) :
    Company.update handle [] st = (.error (.badRequest "No data"), st) ∧
    Job.update id [] st = (.error (.badRequest "No data"), st) ∧
    User.update username [] st = (.error (.badRequest "No data"), st) :=
  ⟨rfl, rfl, rfl⟩

/-- C10: a non-empty update object all of whose values are `undefined` is not
rejected by the no-data guard: `sqlForPartialUpdate` returns an empty
`setCols` and empty values, and `Company.update` goes on to issue the UPDATE
query (the query counter increases) and never fails with a `BadRequestError`
(the empty SET clause is a database syntax error instead). -/
theorem C10_all_undefined_values (data : JSObj) (m : List (String × String))
    (st : DbState) (handle : String)
    (hne : (jsKeys data).isEmpty = false)
    (hund : data.all (fun p => p.2.isUndef) = true) :
    sqlForPartialUpdate data m = .ok { setCols := "", values := [] } ∧
    (Company.update handle data st).2.queriesIssued = st.queriesIssued + 1 ∧
    ∀ msg, (Company.update handle data st).1 ≠ .error (.badRequest msg) := by
  have key : ∀ m2 : List (String × String),
      sqlForPartialUpdate data m2 = .ok { setCols := "", values := [] } := by
    intro m2
    rw [sqlForPartialUpdate_eq data m2 hne, updateAssignments_all_undef data m2 hund]
    rfl
  have hu : Company.update handle data st =
      (.error (.serverError "syntax error in UPDATE: empty SET clause"), bump st) := by
    unfold Company.update
    rw [key companyJsToSql, updateAssignments_all_undef data companyJsToSql hund]
    simp
  refine ⟨key m, ?_, ?_⟩
  · rw [hu]
    rfl
  · intro msg h
    rw [hu] at h
    simp at h

theorem C10_all_undefined_values_witness :
    sqlForPartialUpdate [("logoUrl", JSValue.undef)] companyJsToSql =
        .ok { setCols := "", values := [] } ∧
      (Company.update "c1" [("logoUrl", JSValue.undef)]
          { companies := [], users := [], jobs := [], applications := [],
            queriesIssued := 0 }).2.queriesIssued =
        ({ companies := [], users := [], jobs := [], applications := [],
           queriesIssued := 0 } : DbState).queriesIssued + 1 ∧
      ∀ msg, (Company.update "c1" [("logoUrl", JSValue.undef)]
          { companies := [], users := [], jobs := [], applications := [],
            queriesIssued := 0 }).1 ≠ .error (.badRequest msg) :=
  C10_all_undefined_values [("logoUrl", JSValue.undef)] companyJsToSql
    { companies := [], users := [], jobs := [], applications := [], queriesIssued := 0 }
    "c1" rfl rfl

/-- C4: `authenticateJWT` never produces an error: with no header, a
malformed header, or a token rejected by `jwt.verify` the request continues
anonymously (no claims attached), and claims are attached exactly when the
extracted token verifies. -/
theorem C4_authenticateJWT_fails_open (verify : String → Except String Claims)
    (header : Option String) :
    (∀ e, authenticateJWT verify header ≠ .error e) ∧
    (∀ c, authenticateJWT verify header = .ok (some c) ↔
      ∃ h, header = some h ∧ verify (stripBearer h) = .ok c) := by
  unfold authenticateJWT
  cases header with
  | none => simp
  | some h =>
    cases hv : verify (stripBearer h) with
    | ok c2 => simp [hv, eq_comm]
    | error e => simp [hv]

/-- C5: the guard middlewares decide exactly as claimed: `ensureLoggedIn`
errors iff no claims are attached; `onlyAdmin` errors iff claims are absent
or `claims.isAdmin` is not true; `ensureCorrectUserOrAdmin` errors iff claims
are absent or the user is neither an admin nor the route's target username. -/
theorem C5_guard_decisions (user : Option Claims) (target : String) :
    (ensureLoggedIn user = .error (.unauthorized "Unauthorized") ↔ user = none) ∧
    (onlyAdmin user = .error (.unauthorized "Unauthorized") ↔
      user = none ∨ ∃ c, user = some c ∧ c.isAdmin = false) ∧
    (ensureCorrectUserOrAdmin user target = .error (.unauthorized "Unauthorized") ↔
      user = none ∨ ∃ c, user = some c ∧ c.isAdmin = false ∧ c.username ≠ target) := by
  refine ⟨?_, ?_, ?_⟩
  · cases user <;> simp [ensureLoggedIn]
  · cases user with
    | none => simp [onlyAdmin]
    | some c => cases hA : c.isAdmin <;> simp [onlyAdmin, hA]
  · cases user with
    | none => simp [ensureCorrectUserOrAdmin]
    | some c =>
      cases hA : c.isAdmin with
      | true => simp [ensureCorrectUserOrAdmin, hA]
      | false =>
        by_cases hU : c.username = target
        · simp [ensureCorrectUserOrAdmin, hA, hU]
        · simp [ensureCorrectUserOrAdmin, hA, hU]

/-- C8: `JobApplication.apply` raises NotFound when the job id (checked
first) or the username is missing, BadRequest when the (username, jobId)
pair already has an application, and otherwise inserts the pair and returns
`{applied: jobId}`; on every failure the applications table is unchanged. -/
theorem C8_application_apply (st : DbState) (username : String) (jobId : Int) :
    (st.jobs.any (fun r => r.id == jobId) = false →
      (JobApplication.apply username jobId st).1 = .error (.notFound "Job cannot be found.") ∧
      ((JobApplication.apply username jobId st).2).applications = st.applications) ∧
    (st.jobs.any (fun r => r.id == jobId) = true →
      st.users.any (fun r => r.username == username) = false →
      (JobApplication.apply username jobId st).1 =
        .error (.notFound "Username cannot be found.") ∧
      ((JobApplication.apply username jobId st).2).applications = st.applications) ∧
    (st.jobs.any (fun r => r.id == jobId) = true →
      st.users.any (fun r => r.username == username) = true →
      st.applications.any (fun a => a.1 == username && a.2 == jobId) = true →
      (JobApplication.apply username jobId st).1 =
        .error (.badRequest "Job Application has already been submitted for this job.") ∧
      ((JobApplication.apply username jobId st).2).applications = st.applications) ∧
    (st.jobs.any (fun r => r.id == jobId) = true →
      st.users.any (fun r => r.username == username) = true →
      st.applications.any (fun a => a.1 == username && a.2 == jobId) = false →
      (JobApplication.apply username jobId st).1 = .ok [("applied", .num (jobId : Rat))] ∧
      ((JobApplication.apply username jobId st).2).applications =
        st.applications ++ [(username, jobId)]) := by
  refine ⟨?_, ?_, ?_, ?_⟩
  · intro hj
    simp [JobApplication.apply, hj, bump]
  · intro hj hu2
    simp [JobApplication.apply, hj, hu2, bump]
  · intro hj hu2 hp
    simp [JobApplication.apply, hj, hu2, hp, bump]
  · intro hj hu2 hp
    simp [JobApplication.apply, hj, hu2, hp, bump]

theorem hasField_removeField (o : JSObj) (k : String) :
    hasField (removeField o k) k = false := by
  simp [hasField, removeField, List.mem_filter]

theorem hasField_append (o o2 : JSObj) (k : String) :
    hasField (o ++ o2) k = (hasField o k || hasField o2 k) := by
  simp [hasField, List.any_append]

theorem updateCore_password_free (username : String) (data : JSObj) (st : DbState)
    (r : JSObj) (h : (User.updateCore username data st).1 = .ok r) :
    hasField r "password" = false := by
  unfold User.updateCore at h
  split at h
  · cases h
  · simp only [] at h
    split at h
    · cases h
    · split at h
      · cases h
      · split at h
        · cases h
        · have h2 := Except.ok.inj h
          rw [← h2]
          split
          · exact hasField_removeField _ _
          · rw [hasField_append, hasField_removeField]
            simp [hasField]

/-- C7: no User operation that returns a user record ever includes the
password field: `authenticate` (which deletes it), `register`, `get`,
`findAll` and `update` (password-changing updates included). -/
theorem C7_password_never_returned :
    (∀ username password st r, (User.authenticate username password st).1 = .ok r →
       hasField r "password" = false) ∧
    (∀ username password firstName lastName email isAdmin st r,
       (User.register username password firstName lastName email isAdmin st).1 = .ok r →
       hasField r "password" = false) ∧
    (∀ username st r, (User.get username st).1 = .ok r → hasField r "password" = false) ∧
    (∀ st r, r ∈ (User.findAll st).1 → hasField r "password" = false) ∧
    (∀ username data st r, (User.update username data st).1 = .ok r →
       hasField r "password" = false) := by
  refine ⟨?_, ?_, ?_, ?_, ?_⟩
  · intro username password st r h
    unfold User.authenticate at h
    split at h
    · split at h
      · have h2 := Except.ok.inj h
        rw [← h2]
        exact hasField_removeField _ _
      · cases h
    · cases h
  · intro username password firstName lastName email isAdmin st r h
    unfold User.register at h
    split at h
    · cases h
    · have h2 := Except.ok.inj h
      rw [← h2]
      rfl
  · intro username st r h
    unfold User.get at h
    split at h
    · cases h
    · have h2 := Except.ok.inj h
      rw [← h2]
      rw [hasField_append]
      rfl
  · intro st r h
    unfold User.findAll at h
    rw [List.mem_map] at h
    obtain ⟨row, _, hw⟩ := h
    rw [← hw]
    rfl
  · intro username data st r h
    unfold User.update at h
    simp only [] at h
    split at h
    · split at h
      · exact updateCore_password_free _ _ _ _ h
      · cases h
    · exact updateCore_password_free _ _ _ _ h

theorem C7_password_never_returned_witness :
    ((User.authenticate "u1" "password1" sampleDb).1 =
      .ok [("username", JSValue.str "u1"), ("firstName", JSValue.str "U1F"),
           ("lastName", JSValue.str "U1L"), ("email", JSValue.str "u1@email.com"),
           ("isAdmin", JSValue.bool false)] ∧
     hasField [("username", JSValue.str "u1"), ("firstName", JSValue.str "U1F"),
           ("lastName", JSValue.str "U1L"), ("email", JSValue.str "u1@email.com"),
           ("isAdmin", JSValue.bool false)] "password" = false) ∧
    ((User.register "u9" "pw" "F" "L" "e@x.com" false sampleDb).1 =
      .ok (userReturnRecord sampleUser9) ∧
     hasField (userReturnRecord sampleUser9) "password" = false) ∧
    ((User.get "u1" sampleDb).1 =
      .ok (userReturnRecord sampleUser ++ [("jobs", JSValue.arr [JSValue.num ((1 : Int) : Rat)])]) ∧
     hasField (userReturnRecord sampleUser ++ [("jobs", JSValue.arr [JSValue.num ((1 : Int) : Rat)])])
       "password" = false) ∧
    (userReturnRecord sampleUser ∈ (User.findAll sampleDb).1 ∧
     hasField (userReturnRecord sampleUser) "password" = false) ∧
    ((User.update "u1" [("firstName", JSValue.str "New")] sampleDbNoApps).1 =
      .ok [("username", JSValue.str "u1"), ("firstName", JSValue.str "New"),
           ("lastName", JSValue.str "U1L"), ("email", JSValue.str "u1@email.com"),
           ("isAdmin", JSValue.bool false)] ∧
     hasField [("username", JSValue.str "u1"), ("firstName", JSValue.str "New"),
           ("lastName", JSValue.str "U1L"), ("email", JSValue.str "u1@email.com"),
           ("isAdmin", JSValue.bool false)] "password" = false) := by
  have hfa : (User.findAll sampleDb).1 = [userReturnRecord sampleUser] := by
    simp [User.findAll, sampleDb]
  refine ⟨⟨rfl, C7_password_never_returned.1 "u1" "password1" sampleDb _ rfl⟩,
          ⟨rfl, C7_password_never_returned.2.1 "u9" "pw" "F" "L" "e@x.com" false sampleDb _ rfl⟩,
          ⟨rfl, C7_password_never_returned.2.2.1 "u1" sampleDb _ rfl⟩,
          ⟨?_, ?_⟩,
          ⟨rfl, C7_password_never_returned.2.2.2.2 "u1" [("firstName", JSValue.str "New")]
              sampleDbNoApps _ rfl⟩⟩
  · rw [hfa]
    exact List.mem_singleton.mpr rfl
  · exact C7_password_never_returned.2.2.2.1 sampleDb (userReturnRecord sampleUser)
      (by rw [hfa]; exact List.mem_singleton.mpr rfl)

theorem C8_application_apply_witness :
    (JobApplication.apply "u1" 2 sampleDb).1 = .error (.notFound "Job cannot be found.") ∧
    (JobApplication.apply "ux" 1 sampleDb).1 = .error (.notFound "Username cannot be found.") ∧
    (JobApplication.apply "u1" 1 sampleDb).1 =
      .error (.badRequest "Job Application has already been submitted for this job.") ∧
    (JobApplication.apply "u1" 1 sampleDbNoApps).1 = .ok [("applied", .num ((1 : Int) : Rat))] ∧
    ((JobApplication.apply "u1" 1 sampleDbNoApps).2).applications = [("u1", 1)] :=
  ⟨((C8_application_apply sampleDb "u1" 2).1 rfl).1,
   ((C8_application_apply sampleDb "ux" 1).2.1 rfl rfl).1,
   ((C8_application_apply sampleDb "u1" 1).2.2.1 rfl rfl rfl).1,
   ((C8_application_apply sampleDbNoApps "u1" 1).2.2.2 rfl rfl rfl).1,
   (((C8_application_apply sampleDbNoApps "u1" 1).2.2.2 rfl rfl rfl).2).trans rfl⟩

theorem strStartsWith_dot (s k : String) (hdot : ('.' : Char) ∉ s.data) :
    strStartsWith s (k ++ ".") = false := by
  unfold strStartsWith
  cases hp : (k ++ ".").data.isPrefixOf s.data with
  | false => rfl
  | true =>
    exfalso
    rw [List.isPrefixOf_iff_prefix] at hp
    have hmem : ('.' : Char) ∈ (k ++ ".").data := by
      rw [String.data_append]
      simp
    exact hdot (hp.subset hmem)

theorem userJsToSql_no_nested (k : String) :
    userJsToSql.any (fun q => strStartsWith q.1 (k ++ ".")) = false := by
  have h1 := strStartsWith_dot "firstName" k (by decide)
  have h2 := strStartsWith_dot "lastName" k (by decide)
  have h3 := strStartsWith_dot "isAdmin" k (by decide)
  simp [userJsToSql, h1, h2, h3]

/-- For a mapping that never triggers nested expansion, the assignments are
one per defined field, in field order (undefined fields skipped). -/
theorem updateAssignments_filter (data : JSObj) (m : List (String × String))
    (hnod : (jsKeys data).Nodup)
    (hm : ∀ k, m.any (fun q => strStartsWith q.1 (k ++ ".")) = false) :
    updateAssignments data m =
      (data.filter (fun p => !p.2.isUndef)).map (fun p => (sqlKeyFor m p.1, p.2)) := by
  induction data with
  | nil => rfl
  | cons p rest ih =>
    simp only [jsKeys, List.map_cons, List.nodup_cons] at hnod
    show ((jsKeys (p :: rest)).map (fun k => expandEntry m k (jsGet (p :: rest) k))).flatten = _
    simp only [jsKeys, List.map_cons, List.flatten_cons]
    rw [jsGet_cons_self]
    have hmap : (rest.map Prod.fst).map (fun k => expandEntry m k (jsGet (p :: rest) k)) =
        (rest.map Prod.fst).map (fun k => expandEntry m k (jsGet rest k)) := by
      apply List.map_congr_left
      intro k hk
      rw [jsGet_cons_ne p rest k]
      intro e
      exact hnod.1 (e ▸ hk)
    rw [hmap]
    have ht : ((rest.map Prod.fst).map (fun k => expandEntry m k (jsGet rest k))).flatten =
        updateAssignments rest m := rfl
    rw [ht, ih hnod.2, List.filter_cons]
    cases hd : p.2.isUndef with
    | true =>
      rw [expandEntry_of_undef m p.1 p.2 hd]
      simp [hd]
    | false =>
      rw [expandEntry_simple m p.1 p.2 hd (by rw [hm p.1]; simp)]
      simp [hd]

theorem hasField_of_jsGet_str (data : JSObj) (k : String) (s : String)
    (h : jsGet data k = JSValue.str s) : hasField data k = true := by
  unfold jsGet at h
  cases hf : data.find? (fun p => p.1 == k) with
  | none => rw [hf] at h; cases h
  | some p =>
    have hpred : (p.1 == k) = true :=
      @List.find?_some (String × JSValue) (fun q => q.1 == k) p data hf
    exact List.any_eq_true.mpr ⟨p, List.mem_of_find?_eq_some hf, hpred⟩

theorem jsKeys_setField_present (data : JSObj) (k : String) (v : JSValue)
    (hpresent : hasField data k = true) :
    jsKeys (setField data k v) = jsKeys data := by
  unfold setField
  unfold hasField at hpresent
  rw [if_pos hpresent]
  unfold jsKeys
  rw [List.map_map]
  apply List.map_congr_left
  intro p _
  simp only [Function.comp]
  by_cases h : p.1 = k
  · rw [if_pos (by simp [h])]
  · rw [if_neg (by simp [h])]

theorem sqlKeyFor_user_unmapped (k : String) (h1 : k ≠ "firstName") (h2 : k ≠ "lastName")
    (h3 : k ≠ "isAdmin") : sqlKeyFor userJsToSql k = k := by
  unfold sqlKeyFor userJsToSql
  rw [List.find?_cons_of_neg _ (by simp only [beq_iff_eq]; exact fun e => h1 e.symm)]
  rw [List.find?_cons_of_neg _ (by simp only [beq_iff_eq]; exact fun e => h2 e.symm)]
  rw [List.find?_cons_of_neg _ (by simp only [beq_iff_eq]; exact fun e => h3 e.symm)]
  rfl

theorem sqlKeyFor_user_password (k : String) :
    sqlKeyFor userJsToSql k = "password" ↔ k = "password" := by
  by_cases h1 : k = "firstName"
  · subst h1; decide
  · by_cases h2 : k = "lastName"
    · subst h2; decide
    · by_cases h3 : k = "isAdmin"
      · subst h3; decide
      · rw [sqlKeyFor_user_unmapped k h1 h2 h3]

theorem sqlKeyFor_user_username (k : String) :
    sqlKeyFor userJsToSql k = "username" ↔ k = "username" := by
  by_cases h1 : k = "firstName"
  · subst h1; decide
  · by_cases h2 : k = "lastName"
    · subst h2; decide
    · by_cases h3 : k = "isAdmin"
      · subst h3; decide
      · rw [sqlKeyFor_user_unmapped k h1 h2 h3]

theorem pwOf_ne (k : String) (v : JSValue) (h : (k == "password") = false) :
    pwOf (k, v) = none := by
  unfold pwOf
  rw [if_neg (by simp [h])]

theorem pwOf_eq_some (a : String × JSValue) (s : String) (h : pwOf a = some s) :
    a = ("password", JSValue.str s) := by
  obtain ⟨k, v⟩ := a
  unfold pwOf at h
  by_cases hk : (k == "password") = true
  · rw [if_pos hk] at h
    rw [beq_iff_eq] at hk
    subst hk
    cases v <;> simp_all
  · rw [if_neg hk] at h
    cases h

theorem applyUserAssign_password_some (row row1 : UserRow) (s : String)
    (h : applyUserAssign row ("password", JSValue.str s) = some row1) :
    row1.password = s := by
  rw [← Option.some.inj h]

theorem applyUserAssign_password_preserve (row row1 : UserRow) (a : String × JSValue)
    (h : applyUserAssign row a = some row1) (hp : pwOf a = none) :
    row1.password = row.password := by
  obtain ⟨k, v⟩ := a
  unfold applyUserAssign at h
  split at h
  all_goals try exact Option.noConfusion h
  all_goals try (exfalso; simp_all [pwOf]; done)
  all_goals rw [← Option.some.inj h]

theorem applyUserAssign_username_preserve (row row1 : UserRow) (a : String × JSValue)
    (h : applyUserAssign row a = some row1) (hu : (a.1 == "username") = false) :
    row1.username = row.username := by
  obtain ⟨k, v⟩ := a
  unfold applyUserAssign at h
  split at h
  all_goals try exact Option.noConfusion h
  all_goals try (exfalso; simp_all; done)
  all_goals rw [← Option.some.inj h]

theorem foldlM_password_none (assigns : List (String × JSValue)) :
    ∀ (row row2 : UserRow), assigns.foldlM applyUserAssign row = some row2 →
      pwWrites assigns = [] → row2.password = row.password := by
  induction assigns with
  | nil =>
    intro row row2 h _
    rw [← Option.some.inj h]
  | cons a rest ih =>
    intro row row2 h hp
    rw [List.foldlM_cons] at h
    cases hap : applyUserAssign row a with
    | none => rw [hap] at h; cases h
    | some row1 =>
      rw [hap] at h
      simp only [Option.bind_eq_bind, Option.some_bind] at h
      unfold pwWrites at hp
      rw [List.filterMap_cons] at hp
      cases hm : pwOf a with
      | some s => rw [hm] at hp; cases hp
      | none =>
        rw [hm] at hp
        have h2 := ih row1 row2 h hp
        rw [h2, applyUserAssign_password_preserve row row1 a hap hm]

theorem foldlM_password_last (assigns : List (String × JSValue)) :
    ∀ (row row2 : UserRow) (s : String), assigns.foldlM applyUserAssign row = some row2 →
      pwWrites assigns = [s] → row2.password = s := by
  induction assigns with
  | nil => intro row row2 s _ hp; cases hp
  | cons a rest ih =>
    intro row row2 s h hp
    rw [List.foldlM_cons] at h
    cases hap : applyUserAssign row a with
    | none => rw [hap] at h; cases h
    | some row1 =>
      rw [hap] at h
      simp only [Option.bind_eq_bind, Option.some_bind] at h
      unfold pwWrites at hp
      rw [List.filterMap_cons] at hp
      cases hm : pwOf a with
      | some s2 =>
        rw [hm] at hp
        injection hp with hs2 hrest
        have ha := pwOf_eq_some a s2 hm
        rw [ha] at hap
        have hr1 : row1.password = s2 := applyUserAssign_password_some row row1 s2 hap
        have h2 := foldlM_password_none rest row1 row2 h hrest
        rw [h2, hr1, hs2]
      | none =>
        rw [hm] at hp
        exact ih row1 row2 s h hp

theorem foldlM_username_preserve (assigns : List (String × JSValue)) :
    ∀ (row row2 : UserRow), assigns.foldlM applyUserAssign row = some row2 →
      (∀ a ∈ assigns, (a.1 == "username") = false) → row2.username = row.username := by
  induction assigns with
  | nil =>
    intro row row2 h _
    rw [← Option.some.inj h]
  | cons a rest ih =>
    intro row row2 h hu
    rw [List.foldlM_cons] at h
    cases hap : applyUserAssign row a with
    | none => rw [hap] at h; cases h
    | some row1 =>
      rw [hap] at h
      simp only [Option.bind_eq_bind, Option.some_bind] at h
      have h2 := ih row1 row2 h (fun a2 ha2 => hu a2 (List.mem_cons_of_mem a ha2))
      rw [h2, applyUserAssign_username_preserve row row1 a hap (hu a (List.mem_cons_self a rest))]

theorem pwWrites_map (l : List (String × JSValue)) :
    pwWrites (l.map (fun p => (sqlKeyFor userJsToSql p.1, p.2))) = pwWrites l := by
  unfold pwWrites
  induction l with
  | nil => rfl
  | cons p rest ih =>
    simp only [List.map_cons, List.filterMap_cons]
    have hh : pwOf (sqlKeyFor userJsToSql p.1, p.2) = pwOf p := by
      obtain ⟨k, v⟩ := p
      by_cases hk : k = "password"
      · subst hk
        rfl
      · have h1 : (k == "password") = false := by simp [hk]
        have h2 : (sqlKeyFor userJsToSql k == "password") = false := by
          simp only [beq_eq_false_iff_ne]
          intro e
          exact hk ((sqlKeyFor_user_password k).mp e)
        rw [pwOf_ne _ _ h1, pwOf_ne _ _ h2]
    rw [hh, ih]

theorem pwWrites_filter (l : List (String × JSValue)) :
    pwWrites (l.filter (fun p => !p.2.isUndef)) = pwWrites l := by
  unfold pwWrites
  induction l with
  | nil => rfl
  | cons p rest ih =>
    rw [List.filter_cons]
    cases hd : p.2.isUndef with
    | true =>
      have hv : pwOf p = none := by
        obtain ⟨k, v⟩ := p
        cases v <;>
          first
            | (exfalso; simp [JSValue.isUndef] at hd; done)
            | simp [pwOf]
      simp only [hd, Bool.not_true, Bool.false_eq_true, if_false, List.filterMap_cons, hv, ih]
    | false =>
      simp only [hd, Bool.not_false, if_true, List.filterMap_cons, ih]

theorem pwWrites_setField (data : JSObj) (H : String)
    (hnod : (jsKeys data).Nodup) (hpresent : hasField data "password" = true) :
    pwWrites (setField data "password" (JSValue.str H)) = [H] := by
  unfold setField
  unfold hasField at hpresent
  rw [if_pos hpresent]
  induction data with
  | nil => simp at hpresent
  | cons p rest ih =>
    simp only [jsKeys, List.map_cons, List.nodup_cons] at hnod
    obtain ⟨k, v⟩ := p
    by_cases hk : k = "password"
    · subst hk
      have hmap_rest : rest.map
          (fun p => if p.1 == "password" then (p.1, JSValue.str H) else p) = rest := by
        have hcongr : rest.map
            (fun p => if p.1 == "password" then (p.1, JSValue.str H) else p) = rest.map id := by
          apply List.map_congr_left
          intro q hq
          rw [if_neg]
          · rfl
          · simp only [beq_iff_eq]
            intro e
            have hm1 : q.1 ∈ rest.map Prod.fst := List.mem_map_of_mem Prod.fst hq
            rw [e] at hm1
            exact hnod.1 hm1
        rw [hcongr, List.map_id]
      have hrest_pw : List.filterMap pwOf rest = [] := by
        rw [List.filterMap_eq_nil_iff]
        intro a ha
        apply pwOf_ne
        simp only [beq_eq_false_iff_ne]
        intro e
        have hm1 : a.1 ∈ rest.map Prod.fst := List.mem_map_of_mem Prod.fst ha
        rw [e] at hm1
        exact hnod.1 hm1
      unfold pwWrites
      simp only [List.map_cons, List.filterMap_cons, hmap_rest]
      simp [pwOf, hrest_pw]
    · have hpres2 : (rest.any fun p => p.1 == "password") = true := by
        simpa [hk] using hpresent
      have ihx := ih hnod.2 hpres2
      unfold pwWrites at ihx ⊢
      simp only [List.map_cons, List.filterMap_cons]
      rw [if_neg (by simp [hk])]
      simp only [pwOf_ne k v (by simp [hk])]
      exact ihx

theorem jsGet_append_not_found (o : JSObj) (k : String) (v : JSValue)
    (h : hasField o k = false) : jsGet (o ++ [(k, v)]) k = v := by
  unfold jsGet
  rw [List.find?_append]
  have h1 : o.find? (fun p => p.1 == k) = none := by
    rw [List.find?_eq_none]
    intro x hx
    simp only [beq_iff_eq]
    intro e
    rw [hasField] at h
    have h2 : o.any (fun p => p.1 == k) = true := List.any_eq_true.mpr ⟨x, hx, by simp [e]⟩
    rw [h2] at h
    cases h
  rw [h1]
  simp

/-- C6 counterexample: for the existing user `u1` with no applications, a
successful non-empty update returns a record with NO `jobs` field at all
(the source attaches `user.jobs` only when the application list is
non-empty), contradicting the claim that the applied-job-ID list is returned
for every user including one with no applications. -/
theorem C6_counterexample_no_jobs_field :
    (User.update "u1" [("firstName", JSValue.str "New")] sampleDbNoApps).1 =
      .ok [("username", JSValue.str "u1"), ("firstName", JSValue.str "New"),
           ("lastName", JSValue.str "U1L"), ("email", JSValue.str "u1@email.com"),
           ("isAdmin", JSValue.bool false)] ∧
    hasField [("username", JSValue.str "u1"), ("firstName", JSValue.str "New"),
           ("lastName", JSValue.str "U1L"), ("email", JSValue.str "u1@email.com"),
           ("isAdmin", JSValue.bool false)] "jobs" = false ∧
    sampleDbNoApps.users.find? (fun u => u.username == "u1") = some sampleUser ∧
    (sampleDbNoApps.applications.filter (fun a => a.1 == "u1")) = [] :=
  ⟨rfl, rfl, rfl, rfl⟩

/-- C6 (amended): for an existing user and a non-empty update object with no
duplicate keys, no `username` field and a non-empty string `password` field,
a successful `User.update` persists the bcrypt hash of the supplied password
(every stored row for that username carries the hash, never the raw
password), strips `password` from the returned record, and attaches the
applied-job-ID list to the returned record exactly when that list is
non-empty — for a user with no applications the `jobs` field is absent. -/
theorem C6_user_update_amended (st : DbState) (username : String) (data : JSObj)
    (row : UserRow) (s : String) (r : JSObj)
    (hfind : st.users.find? (fun u => u.username == username) = some row)
    (hnod : (jsKeys data).Nodup)
    (hnorename : hasField data "username" = false)
    (hpw : jsGet data "password" = JSValue.str s)
    (hs : (s == "") = false)
    (hok : (User.update username data st).1 = .ok r) :
    (∀ u ∈ ((User.update username data st).2).users, u.username = username →
       u.password = bcryptHash s) ∧
    hasField r "password" = false ∧
    (((st.applications.filter (fun a => a.1 == username)).map Prod.snd).isEmpty = true →
       hasField r "jobs" = false) ∧
    (((st.applications.filter (fun a => a.1 == username)).map Prod.snd).isEmpty = false →
       jsGet r "jobs" = JSValue.arr
         (((st.applications.filter (fun a => a.1 == username)).map Prod.snd).map
           (fun j => JSValue.num (j : Rat)))) := by
  have hup : User.update username data st =
      User.updateCore username (setField data "password" (JSValue.str (bcryptHash s))) st := by
    unfold User.update
    rw [hpw]
    simp [JSValue.isTruthy, bne, hs]
  set dataP := setField data "password" (JSValue.str (bcryptHash s)) with hdataP
  have hpres : hasField data "password" = true := hasField_of_jsGet_str data "password" s hpw
  have hkeys : jsKeys dataP = jsKeys data := jsKeys_setField_present data "password" _ hpres
  have hne : (jsKeys dataP).isEmpty = false := by
    rw [hkeys]
    cases data with
    | nil => simp [hasField] at hpres
    | cons p rest => rfl
  have hnodP : (jsKeys dataP).Nodup := by rw [hkeys]; exact hnod
  have hassign : updateAssignments dataP userJsToSql =
      (dataP.filter (fun p => !p.2.isUndef)).map (fun p => (sqlKeyFor userJsToSql p.1, p.2)) :=
    updateAssignments_filter dataP userJsToSql hnodP userJsToSql_no_nested
  have hpww : pwWrites (updateAssignments dataP userJsToSql) = [bcryptHash s] := by
    rw [hassign, pwWrites_map, pwWrites_filter, hdataP]
    exact pwWrites_setField data (bcryptHash s) hnod hpres
  have hnonempty : (updateAssignments dataP userJsToSql).isEmpty = false := by
    cases he : updateAssignments dataP userJsToSql with
    | nil => rw [he] at hpww; cases hpww
    | cons a rest => rfl
  have hnames : ∀ a ∈ updateAssignments dataP userJsToSql, (a.1 == "username") = false := by
    intro a ha
    rw [hassign, List.mem_map] at ha
    obtain ⟨p, hp2, rfl⟩ := ha
    simp only [beq_eq_false_iff_ne]
    intro e
    have hkp : p.1 = "username" := (sqlKeyFor_user_username p.1).mp e
    have hmem : p ∈ dataP := (List.mem_filter.mp hp2).1
    have hm1 : p.1 ∈ jsKeys dataP := List.mem_map_of_mem Prod.fst hmem
    rw [hkeys, hkp] at hm1
    rw [jsKeys, List.mem_map] at hm1
    obtain ⟨q, hq, he2⟩ := hm1
    have hcontra : hasField data "username" = true :=
      List.any_eq_true.mpr ⟨q, hq, by simp [he2]⟩
    rw [hcontra] at hnorename
    cases hnorename
  rw [hup] at hok ⊢
  unfold User.updateCore at hok ⊢
  rw [sqlForPartialUpdate_eq dataP userJsToSql hne] at hok ⊢
  simp only [hnonempty, Bool.false_eq_true, if_false, hfind, bump] at hok ⊢
  cases hfold : List.foldlM applyUserAssign row (updateAssignments dataP userJsToSql) with
  | none =>
    rw [hfold] at hok
    simp at hok
  | some row2 =>
    rw [hfold] at hok
    simp only [] at hok ⊢
    have hrow2pw : row2.password = bcryptHash s := foldlM_password_last _ row row2 _ hfold hpww
    have hrowu : row.username = username := by
      have hx : (row.username == username) = true :=
        @List.find?_some UserRow (fun u => u.username == username) row st.users hfind
      exact beq_iff_eq.mp hx
    have hrow2u : row2.username = username := by
      rw [foldlM_username_preserve _ row row2 hfold hnames, hrowu]
    rw [hrow2u] at hok
    refine ⟨?_, ?_, ?_, ?_⟩
    · intro u hu hueq
      simp only [List.mem_map] at hu
      obtain ⟨r0, hr0, hru⟩ := hu
      by_cases hc : (r0.username == username) = true
      · rw [if_pos hc] at hru
        rw [← hru]
        exact hrow2pw
      · rw [if_neg hc] at hru
        rw [← hru] at hueq
        exact absurd (beq_iff_eq.mpr hueq) hc
    · have h2 := Except.ok.inj hok
      rw [← h2]
      split
      · exact hasField_removeField _ _
      · rw [hasField_append, hasField_removeField]
        simp [hasField]
    · intro hempty
      have h2 := Except.ok.inj hok
      rw [← h2]
      rw [if_pos hempty]
      rfl
    · intro hnonemp
      have h2 := Except.ok.inj hok
      rw [← h2]
      rw [if_neg (by simp [hnonemp])]
      apply jsGet_append_not_found
      rfl

theorem C6_user_update_amended_witness :
    ({ sampleUser with password := bcryptHash "newpw", firstName := "New" } : UserRow).password =
      bcryptHash "newpw" ∧
    hasField [("username", JSValue.str "u1"), ("firstName", JSValue.str "New"),
       ("lastName", JSValue.str "U1L"), ("email", JSValue.str "u1@email.com"),
       ("isAdmin", JSValue.bool false), ("jobs", JSValue.arr [JSValue.num ((1 : Int) : Rat)])]
      "password" = false ∧
    jsGet [("username", JSValue.str "u1"), ("firstName", JSValue.str "New"),
       ("lastName", JSValue.str "U1L"), ("email", JSValue.str "u1@email.com"),
       ("isAdmin", JSValue.bool false), ("jobs", JSValue.arr [JSValue.num ((1 : Int) : Rat)])]
      "jobs" = JSValue.arr [JSValue.num ((1 : Int) : Rat)] := by
  have h := C6_user_update_amended sampleDb "u1"
      [("password", JSValue.str "newpw"), ("firstName", JSValue.str "New")]
      sampleUser "newpw"
      [("username", JSValue.str "u1"), ("firstName", JSValue.str "New"),
       ("lastName", JSValue.str "U1L"), ("email", JSValue.str "u1@email.com"),
       ("isAdmin", JSValue.bool false), ("jobs", JSValue.arr [JSValue.num ((1 : Int) : Rat)])]
      rfl (by decide) rfl rfl rfl rfl
  have husers : ((User.update "u1"
      [("password", JSValue.str "newpw"), ("firstName", JSValue.str "New")] sampleDb).2).users =
      [{ sampleUser with password := bcryptHash "newpw", firstName := "New" }] := rfl
  refine ⟨?_, h.2.1, h.2.2.2 rfl⟩
  exact h.1 _ (by rw [husers]; exact List.mem_singleton.mpr rfl) rfl


theorem likeMatch_percent : ∀ s, likeMatch ['%'] s = true := by
  intro s
  induction s with
  | nil => simp [likeMatch]
  | cons c s2 ih => simp [likeMatch, ih]

theorem isPrefixOf_nil_eq (pat : List Char) :
    pat.isPrefixOf ([] : List Char) = pat.isEmpty := by
  cases pat <;> rfl

theorem likeMatch_literal (pat : List Char) (hw : noWildList pat = true) :
    ∀ t, likeMatch (pat ++ ['%']) t = pat.isPrefixOf t := by
  induction pat with
  | nil =>
    intro t
    rw [List.nil_append, likeMatch_percent t]
    simp [List.isPrefixOf]
  | cons a pat ih =>
    intro t
    simp only [noWildList, List.all_cons, Bool.and_eq_true] at hw
    have ha : a ≠ '%' ∧ a ≠ '_' ∧ a ≠ '\\' := by
      have ha0 : (a == '%' || a == '_' || a == '\\') = false := by
        rw [← Bool.not_eq_true']
        exact hw.1
      have ha1 := by simpa using ha0
      exact ⟨ha1.1.1, ha1.1.2, ha1.2⟩
    cases t with
    | nil =>
      rw [List.cons_append]
      rw [likeMatch.eq_10 a (pat ++ ['%']) ha.1 ha.2.1
          (fun q ps2 e _ => ha.2.2 e) (fun e _ => ha.2.2 e)]
      rfl
    | cons c t2 =>
      rw [List.cons_append]
      rw [likeMatch.eq_9 a (pat ++ ['%']) c t2 ha.1 ha.2.1
          (fun q ps2 e _ => ha.2.2 e) (fun e _ => ha.2.2 e)]
      rw [ih hw.2 t2]
      rfl

theorem likeMatch_contains (pat : List Char) (hw : noWildList pat = true) :
    ∀ s, likeMatch ('%' :: (pat ++ ['%'])) s = containsSub pat s := by
  intro s
  induction s with
  | nil =>
    rw [likeMatch.eq_2, likeMatch_literal pat hw [], isPrefixOf_nil_eq]
    rfl
  | cons c s2 ih =>
    rw [likeMatch.eq_3, likeMatch_literal pat hw (c :: s2), ih]
    rfl

theorem toNat_ofNat_valid (n : Nat) (h : n.isValidChar) : (Char.ofNat n).toNat = n := by
  unfold Char.ofNat
  rw [dif_pos h]
  rfl

theorem toLower_preserve (c : Char) :
    Char.toLower c = c ∨ (97 ≤ (Char.toLower c).toNat ∧ (Char.toLower c).toNat ≤ 122) := by
  unfold Char.toLower
  dsimp only
  split
  · next h =>
    right
    have hv : (Char.toNat c + 32).isValidChar := Or.inl (by omega)
    rw [toNat_ofNat_valid _ hv]
    omega
  · left
    rfl

theorem noWild_lower (p : String) (h : noWildStr p = true) :
    noWildList (lowerStr p).data = true := by
  show (p.data.map Char.toLower).all (fun c => !(c == '%' || c == '_' || c == '\\')) = true
  rw [List.all_map]
  unfold noWildStr at h
  rw [List.all_eq_true] at h
  apply List.all_eq_true.mpr
  intro c hc
  have hc2 := h c hc
  simp only [Function.comp]
  rcases toLower_preserve c with he | ⟨h1, h2⟩
  · rw [he]
    exact hc2
  · have e1 : ('%' : Char).toNat = 37 := rfl
    have e2 : ('_' : Char).toNat = 95 := rfl
    have e3 : ('\\' : Char).toNat = 92 := rfl
    have n1 : (Char.toLower c == '%') = false := by
      simp only [beq_eq_false_iff_ne]
      intro e
      rw [e, e1] at h1
      omega
    have n2 : (Char.toLower c == '_') = false := by
      simp only [beq_eq_false_iff_ne]
      intro e
      rw [e, e2] at h1
      omega
    have n3 : (Char.toLower c == '\\') = false := by
      simp only [beq_eq_false_iff_ne]
      intro e
      rw [e, e3] at h1
      omega
    simp [n1, n2, n3]

theorem sqlLikeContains_eq_containsCI (pat s : String) (hw : noWildStr pat = true) :
    sqlLikeContains pat s = containsCI pat s := by
  unfold sqlLikeContains containsCI
  exact likeMatch_contains (lowerStr pat).data (noWild_lower pat hw) (lowerStr s).data

theorem companyCond_eq_spec (f : CompanyFilters) (row : CompanyRow)
    (hw : (match f.nameLike with | some p => noWildStr p | none => true) = true) :
    companyCond f row = specCompanyPred f row := by
  unfold companyCond specCompanyPred
  cases hn : f.nameLike with
  | none => rfl
  | some p =>
    rw [hn] at hw
    simp only []
    rw [sqlLikeContains_eq_containsCI p row.name hw]

theorem jobCond_eq_spec (f : JobFilters) (row : JobRow)
    (hw : (match f.titleLike with | some p => noWildStr p | none => true) = true) :
    jobCond f row = specJobPred f row := by
  unfold jobCond specJobPred
  cases hn : f.titleLike with
  | none => rfl
  | some p =>
    rw [hn] at hw
    simp only []
    rw [sqlLikeContains_eq_containsCI p row.title hw]

/-- C3 counterexample: with `nameLike = "c%3"` (a LIKE wildcard pattern) the
query returns the company named "ca3", although "ca3" does not contain
"c%3" as a substring — the claim's predicate is false on a returned row. -/
theorem C3_counterexample_like_wildcard :
    (Company.findAll wildCompanyFilters wildCompanyDb).1 = [wildCompany] ∧
    specCompanyPred wildCompanyFilters wildCompany = false := by
  constructor
  · have hsql : sqlLikeContains "c%3" "ca3" = true := by
      have he : sqlLikeContains "c%3" "ca3" =
          likeMatch ['%', 'c', '%', '3', '%'] ['c', 'a', '3'] := rfl
      rw [he]
      simp [likeMatch]
    have hc : companyCond wildCompanyFilters wildCompany = true := by
      simp [companyCond, wildCompanyFilters, wildCompany, hsql]
    show (wildCompanyDb.companies.filter (companyCond wildCompanyFilters)).mergeSort
        (fun a b => decide (a.name ≤ b.name)) = [wildCompany]
    have hfil : wildCompanyDb.companies.filter (companyCond wildCompanyFilters) =
        [wildCompany] := by
      simp [wildCompanyDb, List.filter_cons, hc]
    rw [hfil]
    simp
  · decide

/-- C3 (amended): provided the `nameLike` pattern (when supplied) contains no
SQL LIKE wildcard or escape characters (`%`, `_`, `\`), `Company.findAll`
returns exactly the stored companies satisfying every supplied predicate
(conjunctively), ordered by name ascending; with no filters it returns all
companies.  In general the name match is SQL `LIKE '%' || pattern || '%'`,
which is wider than substring containment when the pattern has wildcards. -/
theorem C3_company_findAll_amended (f : CompanyFilters) (st : DbState)
    (hw : (match f.nameLike with | some p => noWildStr p | none => true) = true) :
    (Company.findAll f st).1.Perm (st.companies.filter (specCompanyPred f)) ∧
    (Company.findAll f st).1.Pairwise (fun a b => a.name ≤ b.name) := by
  have hfe : st.companies.filter (companyCond f) = st.companies.filter (specCompanyPred f) :=
    List.filter_congr (fun row _ => companyCond_eq_spec f row hw)
  constructor
  · show ((st.companies.filter (companyCond f)).mergeSort
        (fun a b => decide (a.name ≤ b.name))).Perm _
    rw [hfe]
    exact List.mergeSort_perm _ _
  · show ((st.companies.filter (companyCond f)).mergeSort
        (fun a b => decide (a.name ≤ b.name))).Pairwise _
    have hs := @List.sorted_mergeSort CompanyRow (fun a b => decide (a.name ≤ b.name))
      (fun a b c h1 h2 =>
        decide_eq_true (le_trans (of_decide_eq_true h1) (of_decide_eq_true h2)))
      (fun a b => by rcases le_total a.name b.name with h | h <;> simp [h])
      (st.companies.filter (companyCond f))
    exact hs.imp (fun h => of_decide_eq_true h)

theorem C3_company_findAll_amended_witness :
    (Company.findAll specCompanyFilters specCompanyDb).1.Perm
      (specCompanyDb.companies.filter (specCompanyPred specCompanyFilters)) ∧
    (Company.findAll specCompanyFilters specCompanyDb).1.Pairwise
      (fun a b => a.name ≤ b.name) ∧
    specCompanyDb.companies.filter (specCompanyPred specCompanyFilters) =
      [{ handle := "c2", name := "C2", description := "D2", numEmployees := some 2, logoUrl := none },
       { handle := "c3", name := "C3", description := "D3", numEmployees := some 3, logoUrl := none }] := by
  have h := C3_company_findAll_amended specCompanyFilters specCompanyDb rfl
  exact ⟨h.1, h.2, by decide⟩

/-- C9 counterexample: with `titleLike = "c%3"` the query returns the job
titled "ca3", although "ca3" does not contain "c%3" as a substring. -/
theorem C9_counterexample_like_wildcard :
    (Job.findAll wildJobFilters wildJobDb).1 = [wildJob] ∧
    specJobPred wildJobFilters wildJob = false := by
  constructor
  · have hsql : sqlLikeContains "c%3" "ca3" = true := by
      have he : sqlLikeContains "c%3" "ca3" =
          likeMatch ['%', 'c', '%', '3', '%'] ['c', 'a', '3'] := rfl
      rw [he]
      simp [likeMatch]
    have hc : jobCond wildJobFilters wildJob = true := by
      simp [jobCond, wildJobFilters, wildJob, hasEquityFlag, hsql]
    show (wildJobDb.jobs.filter (jobCond wildJobFilters)).mergeSort
        (fun a b => decide (a.title ≤ b.title)) = [wildJob]
    have hfil : wildJobDb.jobs.filter (jobCond wildJobFilters) = [wildJob] := by
      simp [wildJobDb, List.filter_cons, hc]
    rw [hfil]
    simp
  · decide

/-- C9 (amended): provided the `titleLike` pattern (when supplied) contains
no SQL LIKE wildcard or escape characters, `Job.findAll` returns exactly the
stored jobs satisfying every supplied predicate combined with AND (salary
minimum, equity > 0 under the hasEquity flag, exact title, title substring),
ordered by title ascending.  In general the title match is SQL
`LIKE '%' || pattern || '%'`. -/
theorem C9_job_findAll_amended (f : JobFilters) (st : DbState)
    (hw : (match f.titleLike with | some p => noWildStr p | none => true) = true) :
    (Job.findAll f st).1.Perm (st.jobs.filter (specJobPred f)) ∧
    (Job.findAll f st).1.Pairwise (fun a b => a.title ≤ b.title) := by
  have hfe : st.jobs.filter (jobCond f) = st.jobs.filter (specJobPred f) :=
    List.filter_congr (fun row _ => jobCond_eq_spec f row hw)
  constructor
  · show ((st.jobs.filter (jobCond f)).mergeSort
        (fun a b => decide (a.title ≤ b.title))).Perm _
    rw [hfe]
    exact List.mergeSort_perm _ _
  · show ((st.jobs.filter (jobCond f)).mergeSort
        (fun a b => decide (a.title ≤ b.title))).Pairwise _
    have hs := @List.sorted_mergeSort JobRow (fun a b => decide (a.title ≤ b.title))
      (fun a b c h1 h2 =>
        decide_eq_true (le_trans (of_decide_eq_true h1) (of_decide_eq_true h2)))
      (fun a b => by rcases le_total a.title b.title with h | h <;> simp [h])
      (st.jobs.filter (jobCond f))
    exact hs.imp (fun h => of_decide_eq_true h)

theorem C9_job_findAll_amended_witness :
    (Job.findAll specJobFilters specJobDb).1.Perm
      (specJobDb.jobs.filter (specJobPred specJobFilters)) ∧
    (Job.findAll specJobFilters specJobDb).1.Pairwise (fun a b => a.title ≤ b.title) ∧
    specJobDb.jobs.filter (specJobPred specJobFilters) =
      [{ id := 2, title := "j2", salary := some 200000, equity := some 1, companyHandle := "c2" }] := by
  have h := C9_job_findAll_amended specJobFilters specJobDb rfl
  exact ⟨h.1, h.2, by decide⟩
